import Mathlib

/-!
Shallow embedding of the tag-query expression engine found in
src/expr/tagquery/expression_not_match.go of the metrictank repository.
Go strings are modelled as Lean strings (the inputs are scanned
byte-by-byte in Go; on the character level the two coincide for the
ASCII grammar characters the parser inspects).  The two collaborator
functions the parser depends on (validateQueryExpressionTagKey and
regexp.Compile) are not part of this package and are threaded through
as explicit parameters: a key validator returning an optional error
message, and a regex compiler returning either an error message or the
compiled pattern's MatchString function.
-/

namespace Tagquery

/-- FilterDecision mirrors the Go type: None (no decision has been made),
Fail (the metric does not end up in the result set), Pass (the filter has
passed). -/
inductive FilterDecision where
  | None
  | Fail
  | Pass
deriving DecidableEq, Repr

/-- ExpressionOperator mirrors the Go enumeration EQUAL .. NOT_HAS_TAG.
The two sentinel operators MATCH_ALL and MATCH_NONE are referenced by
SortByFilterOrder but defined outside the sources at hand; they are
modelled from the spec: synthetic sentinel operators used only for cost
ordering, never produced by the parser. -/
inductive ExpressionOperator where
  | EQUAL
  | NOT_EQUAL
  | MATCH
  | MATCH_TAG
  | NOT_MATCH
  | PREFIX
  | PREFIX_TAG
  | HAS_TAG
  | NOT_HAS_TAG
  | MATCH_ALL
  | MATCH_NONE
deriving DecidableEq, Repr

/-- Error values returned by ParseExpression.  invalidExpression carries
the whole expression text, matching fmt.Errorf("Invalid expression: %s", expr);
keyValidation carries the key, the expression and the validator's message,
matching the wrapped key-validation error; regexCompile carries the regex
compiler's own error message, passed through unwrapped. -/
inductive GoErr where
  | invalidExpression (expr : String)
  | keyValidation (key expr msg : String)
  | regexCompile (msg : String)
  | invalidOperator (expr : String)
deriving DecidableEq, Repr

/-- RegexFn models a compiled regular expression by its MatchString function. -/
def RegexFn : Type := String → Bool

/-- expressionNotMatch mirrors the Go struct of the same name: the embedded
expressionCommon supplies the key and the value (and, since only it and
the named field valueRe make up the struct, the promoted matchesEmpty
field read by GetDefaultDecision), valueRe is the compiled pattern.  The
construction site in ParseExpression assigns only key, value and valueRe,
so matchesEmpty keeps Go's zero value false in every parsed expression;
the parser below reproduces that. -/
structure expressionNotMatch where
  key : String
  value : String
  matchesEmpty : Bool
  valueRe : RegexFn

/-- GetOperator of expressionNotMatch returns NOT_MATCH. -/
def expressionNotMatch.GetOperator (_ : expressionNotMatch) : ExpressionOperator :=
  .NOT_MATCH

/-- RequiresNonEmptyValue of expressionNotMatch returns false (verbatim
from the Go method body). -/
def expressionNotMatch.RequiresNonEmptyValue (_ : expressionNotMatch) : Bool :=
  false

/-- HasRe of expressionNotMatch returns true. -/
def expressionNotMatch.HasRe (_ : expressionNotMatch) : Bool :=
  true

/-- ValuePasses of expressionNotMatch negates the regex match. -/
def expressionNotMatch.ValuePasses (e : expressionNotMatch) (value : String) : Bool :=
  !(e.valueRe value)

/-- GetDefaultDecision of expressionNotMatch: if the pattern matches ""
then a metric which does not have the tag at all should not be part of
the result set. -/
def expressionNotMatch.GetDefaultDecision (e : expressionNotMatch) : FilterDecision :=
  if e.matchesEmpty then .Fail else .Pass

/-- StringIntoBuilder of expressionNotMatch appends key, "!=~" and value
to the builder, which is modelled as the string built so far. -/
def expressionNotMatch.StringIntoBuilder (e : expressionNotMatch) (builder : String) : String :=
  builder ++ e.key ++ "!=~" ++ e.value

/-- Expression models the interface value returned by ParseExpression.
Only the expressionNotMatch variant's method set is among the sources at
hand, so it is embedded precisely; the remaining variants are carried as
records of the constructor arguments visible at their construction sites
(the embedded expressionCommon, with the compiled pattern for the regex
variants). -/
inductive Expression where
  | notMatch (e : expressionNotMatch)
  | regexVariant (op : ExpressionOperator) (key value : String) (valueRe : RegexFn)
  | plainVariant (op : ExpressionOperator) (key value : String)

/-- GetOperator of an expression value. -/
def Expression.getOperator : Expression → ExpressionOperator
  | .notMatch e => e.GetOperator
  | .regexVariant op _ _ _ => op
  | .plainVariant op _ _ => op

/-- GetKey accessor: returns the key stored in the embedded expressionCommon. -/
def Expression.getKey : Expression → String
  | .notMatch e => e.key
  | .regexVariant _ key _ _ => key
  | .plainVariant _ key _ => key

/-- GetValue accessor: returns the value stored in the embedded expressionCommon. -/
def Expression.getValue : Expression → String
  | .notMatch e => e.value
  | .regexVariant _ _ value _ => value
  | .plainVariant _ _ value => value

/-- StringIntoBuilder of ExpressionOperator mirrors the Go method: it
appends the operator's canonical token to the builder; the switch names
no case for the two sentinel operators, so they append nothing. -/
def ExpressionOperator.StringIntoBuilder (o : ExpressionOperator) (builder : String) : String :=
  match o with
  | .EQUAL => builder ++ "="
  | .NOT_EQUAL => builder ++ "!="
  | .MATCH => builder ++ "=~"
  | .MATCH_TAG => builder ++ "=~"
  | .NOT_MATCH => builder ++ "!=~"
  | .PREFIX => builder ++ "^="
  | .PREFIX_TAG => builder ++ "^="
  | .HAS_TAG => builder ++ "!="
  | .NOT_HAS_TAG => builder ++ "="
  | .MATCH_ALL => builder
  | .MATCH_NONE => builder

/-- stringIntoBuilder of an expression value.  The notMatch variant's
method is among the sources and embedded above; the other variants' files
are not under the sources at hand, so they are modelled from the spec:
StringIntoBuilder appends the canonical key, operator token and value,
with the token supplied by ExpressionOperator.StringIntoBuilder from the
sources. -/
def Expression.stringIntoBuilder : Expression → String → String
  | .notMatch e, builder => e.StringIntoBuilder builder
  | .regexVariant op key value _, builder => op.StringIntoBuilder (builder ++ key) ++ value
  | .plainVariant op key value, builder => op.StringIntoBuilder (builder ++ key) ++ value

/-- compiledRe returns the compiled pattern carried by a regex-bearing
expression value, none for the plain variants. -/
def Expression.compiledRe : Expression → Option RegexFn
  | .notMatch e => some e.valueRe
  | .regexVariant _ _ _ re => some re
  | .plainVariant _ _ _ => none

/-- keyChar is true for the characters the FIND_OPERATOR loop scans over,
i.e. everything except the three terminator characters. -/
def keyChar (c : Char) : Bool :=
  !(c = '=' || c = '!' || c = '^')

/-- deriveOperator mirrors the nested if/else deriving the operator from
the not/prefix-flag/regex flags and value emptiness in ParseExpression. -/
def deriveOperator (notFlag pfxFlag regexFlag valueEmpty : Bool) : ExpressionOperator :=
  if notFlag then
    if valueEmpty then .HAS_TAG
    else if regexFlag then .NOT_MATCH
    else .NOT_EQUAL
  else
    if pfxFlag then
      if valueEmpty then .HAS_TAG else .PREFIX
    else if valueEmpty then .NOT_HAS_TAG
    else if regexFlag then .MATCH
    else .EQUAL

/-- remapTag mirrors the special-key remapping for the reserved key __tag. -/
def remapTag (op : ExpressionOperator) : ExpressionOperator :=
  if op = .PREFIX then .PREFIX_TAG
  else if op = .MATCH then .MATCH_TAG
  else op

/-- rewriteRegexValue mirrors the anchoring rewrite applied before
compiling a regex value: a non-empty value not starting with a caret is
wrapped into an anchored non-capturing group. -/
def rewriteRegexValue (value : String) : String :=
  match value.toList with
  | [] => value
  | c :: _ => if c = '^' then value else "^(?:" ++ value ++ ")"

/-- finalOperator is the operator after derivation and the __tag remap. -/
def finalOperator (keyS : String) (notFlag pfxFlag regexFlag valueEmpty : Bool) :
    ExpressionOperator :=
  if keyS = "__tag" then remapTag (deriveOperator notFlag pfxFlag regexFlag valueEmpty)
  else deriveOperator notFlag pfxFlag regexFlag valueEmpty

/-- constructExpression mirrors the construction tail of ParseExpression:
for the three regex operators the (already rewritten) value is compiled
and the matching variant built around the compiled pattern — the composite
literal assigns only the embedded expressionCommon and valueRe, leaving
matchesEmpty at Go's zero value false — otherwise the plain variant is
built; the final fall-through error of the Go function is kept for the
operators no branch names. -/
def constructExpression (comp : String → Except String RegexFn) (expr keyS : String)
    (operator : ExpressionOperator) (value : String) : Except GoErr Expression :=
  if operator = .MATCH ∨ operator = .NOT_MATCH ∨ operator = .MATCH_TAG then
    match comp (rewriteRegexValue value) with
    | .error msg => .error (.regexCompile msg)
    | .ok valueRe =>
      match operator with
      | .MATCH => .ok (.regexVariant .MATCH keyS (rewriteRegexValue value) valueRe)
      | .NOT_MATCH => .ok (.notMatch ⟨keyS, rewriteRegexValue value, false, valueRe⟩)
      | .MATCH_TAG => .ok (.regexVariant .MATCH_TAG keyS (rewriteRegexValue value) valueRe)
      | _ => .error (.invalidOperator expr)
  else
    match operator with
    | .EQUAL => .ok (.plainVariant .EQUAL keyS value)
    | .NOT_EQUAL => .ok (.plainVariant .NOT_EQUAL keyS value)
    | .PREFIX => .ok (.plainVariant .PREFIX keyS value)
    | .MATCH_TAG => .ok (.plainVariant .MATCH_TAG keyS value)
    | .HAS_TAG => .ok (.plainVariant .HAS_TAG keyS value)
    | .NOT_HAS_TAG => .ok (.plainVariant .NOT_HAS_TAG keyS value)
    | .PREFIX_TAG => .ok (.plainVariant .PREFIX_TAG keyS value)
    | _ => .error (.invalidOperator expr)

/-- parseTail mirrors the tail of ParseExpression after the key has been
scanned, validated, and the flag/'='/'~' characters consumed: the value
scan (rejecting ';'), operator derivation, the __tag special case, the
regex anchoring rewrite and compilation, and the construction of the
variant. -/
def parseTail (comp : String → Except String RegexFn) (expr : String)
    (keyS : String) (notFlag pfxFlag regexFlag : Bool) (valueChars : List Char) :
    Except GoErr Expression :=
  if ';' ∈ valueChars then .error (.invalidExpression expr)
  else if keyS = "__tag" ∧ (notFlag = true ∨ String.mk valueChars = "") then
    .error (.invalidExpression expr)
  else
    constructExpression comp expr keyS
      (finalOperator keyS notFlag pfxFlag regexFlag (String.mk valueChars = ""))
      (String.mk valueChars)

/-- ParseExpression mirrors the Go function of the same name.  vk is the
collaborator key validator (returning some error message on rejection),
comp the collaborator regex compiler.  The FIND_OPERATOR loop scanning up
to the first of '=', '!', '^' while rejecting ';' is rendered with
takeWhile/dropWhile over the characters: the key is the longest stretch of
non-terminator characters, a ';' inside it triggers the invalid-expression
error exactly as the early return in the Go loop does. -/
def ParseExpression (vk : String → Option String) (comp : String → Except String RegexFn)
    (expr : String) : Except GoErr Expression :=
  if ';' ∈ expr.toList.takeWhile keyChar then .error (.invalidExpression expr)
  else if expr.toList.takeWhile keyChar = [] then .error (.invalidExpression expr)
  else
    match vk (String.mk (expr.toList.takeWhile keyChar)) with
    | some msg => .error (.keyValidation (String.mk (expr.toList.takeWhile keyChar)) expr msg)
    | none =>
      match expr.toList.dropWhile keyChar with
      | [] => .error (.invalidExpression expr)
      | t :: rest =>
        if t = '!' ∨ t = '^' then
          match rest with
          | [] => .error (.invalidExpression expr)
          | c2 :: rest2 =>
            if c2 = '=' then
              match rest2 with
              | [] =>
                parseTail comp expr (String.mk (expr.toList.takeWhile keyChar))
                  (decide (t = '!')) (decide (t = '^')) false []
              | c3 :: rest3 =>
                if c3 = '~' then
                  if t = '^' then .error (.invalidExpression expr)
                  else
                    parseTail comp expr (String.mk (expr.toList.takeWhile keyChar))
                      (decide (t = '!')) (decide (t = '^')) true rest3
                else
                  parseTail comp expr (String.mk (expr.toList.takeWhile keyChar))
                    (decide (t = '!')) (decide (t = '^')) false (c3 :: rest3)
            else .error (.invalidExpression expr)
        else
          match rest with
          | [] =>
            parseTail comp expr (String.mk (expr.toList.takeWhile keyChar))
              false false false []
          | c3 :: rest3 =>
            if c3 = '~' then
              parseTail comp expr (String.mk (expr.toList.takeWhile keyChar))
                false false true rest3
            else
              parseTail comp expr (String.mk (expr.toList.takeWhile keyChar))
                false false false (c3 :: rest3)

/-- strHasPfx models strings.HasPrefix on the character level. -/
def strHasPfx (s pre : String) : Bool :=
  pre.toList.isPrefixOf s.toList

/-- strDrop models the Go slice s[n:] on the character level. -/
def strDrop (s : String) (n : Nat) : String :=
  String.mk (s.toList.drop n)

/-- FilterCache models the per-closure state captured by the filter
returned from expressionNotMatch.GetMetricDefinitionFilter: the two
sync.Map value sets and their size counters.  The concurrent execution is
modelled single-threaded: one invocation performs its loads, its regex
test and its conditional store in sequence. -/
structure FilterCache where
  matchCache : List String
  missCache : List String
  currentMatchCacheSize : Int
  currentMissCacheSize : Int

/-- emptyFilterCache is the state of the freshly created closure. -/
def emptyFilterCache : FilterCache := ⟨[], [], 0, 0⟩

/-- notMatchFilterLoop mirrors the tag loop of the filter closure built by
expressionNotMatch.GetMetricDefinitionFilter: skip tags not starting with
key ++ "=", return Pass for an empty expression value, consult the miss
and match caches, otherwise run the regex and store the outcome if the
corresponding cache is still below the cap.  It returns the decision
together with the updated cache state; matchCacheSize is the package-level
cap. -/
def notMatchFilterLoop (e : expressionNotMatch) (matchCacheSize : Int)
    (cache : FilterCache) : List String → FilterDecision × FilterCache
  | [] => (.None, cache)
  | tag :: rest =>
    if !(strHasPfx tag (e.key ++ "=")) then
      notMatchFilterLoop e matchCacheSize cache rest
    else if e.value = "" then (.Pass, cache)
    else
      let value := strDrop tag (e.key ++ "=").length
      if value ∈ cache.missCache then (.Pass, cache)
      else if value ∈ cache.matchCache then (.Fail, cache)
      else if e.valueRe value then
        (.Fail,
          if cache.currentMatchCacheSize < matchCacheSize then
            { cache with
              matchCache := value :: cache.matchCache
              currentMatchCacheSize := cache.currentMatchCacheSize + 1 }
          else cache)
      else
        (.Pass,
          if cache.currentMissCacheSize < matchCacheSize then
            { cache with
              missCache := value :: cache.missCache
              currentMissCacheSize := cache.currentMissCacheSize + 1 }
          else cache)

/-- GetMetricDefinitionFilter mirrors the closure construction of the Go
method: the name fast path when the key is "name" (with the always-Pass
shortcut for an empty value), and otherwise the tag loop over the cache
state. -/
def expressionNotMatch.GetMetricDefinitionFilter (e : expressionNotMatch)
    (matchCacheSize : Int) (cache : FilterCache) (name : String) (tags : List String) :
    FilterDecision × FilterCache :=
  if e.key = "name" then
    if e.value = "" then (.Pass, cache)
    else if e.valueRe name then (.Fail, cache)
    else (.Pass, cache)
  else notMatchFilterLoop e matchCacheSize cache tags

/-- Faithful states the cache invariant every reachable cache state
satisfies: the match cache only holds values the pattern matches, the miss
cache only values it does not match. -/
def Faithful (e : expressionNotMatch) (cache : FilterCache) : Prop :=
  (∀ v ∈ cache.matchCache, e.valueRe v = true) ∧
  (∀ v ∈ cache.missCache, e.valueRe v = false)

/-- firstTagValue returns the value of the first tag in list order whose
string starts with key ++ "=", if any. -/
def firstTagValue (key : String) : List String → Option String
  | [] => none
  | tag :: rest =>
    if strHasPfx tag (key ++ "=") then some (strDrop tag (key ++ "=").length)
    else firstTagValue key rest

/-- MetricDefinitionFilter models the Go function type: a pure function
from a metric's name and tags to a FilterDecision. -/
def MetricDefinitionFilter : Type := String → List String → FilterDecision

/-- MetricDefinitionFiltersFilter mirrors MetricDefinitionFilters.Filter:
invoke the filters in order, return the first Fail or Pass, and None when
the list is exhausted. -/
def MetricDefinitionFiltersFilter (m : List MetricDefinitionFilter)
    (name : String) (tags : List String) : FilterDecision :=
  match m with
  | [] => .None
  | f :: fs =>
    let decision := f name tags
    if decision = .Fail then .Fail
    else if decision = .Pass then .Pass
    else MetricDefinitionFiltersFilter fs name tags

/-- costByOperator mirrors the cost map of Expressions.SortByFilterOrder. -/
def costByOperator : ExpressionOperator → Nat
  | .MATCH_NONE => 0
  | .EQUAL => 1
  | .HAS_TAG => 2
  | .PREFIX => 3
  | .PREFIX_TAG => 4
  | .NOT_EQUAL => 5
  | .NOT_HAS_TAG => 6
  | .MATCH => 7
  | .MATCH_TAG => 8
  | .NOT_MATCH => 9
  | .MATCH_ALL => 10

/-- filterOrderLess mirrors the less function passed to sort.Slice by
SortByFilterOrder: operators of equal cost-class compare by key, then by
value; otherwise by the cost table. -/
def filterOrderLess (a b : Expression) : Bool :=
  if a.getOperator = b.getOperator then
    if a.getKey = b.getKey then decide (a.getValue < b.getValue)
    else decide (a.getKey < b.getKey)
  else decide (costByOperator a.getOperator < costByOperator b.getOperator)

/-- filterOrderLE is the non-strict counterpart of filterOrderLess: a may
be placed before b.  sort.Slice guarantees the output is a permutation
ordered by the less function; that postcondition is realized here with a
stable executable sort over this relation. -/
def filterOrderLE (a b : Expression) : Prop :=
  ¬ filterOrderLess b a = true

instance : DecidableRel filterOrderLE := fun a b => by
  unfold filterOrderLE; infer_instance

/-- SortByFilterOrder mirrors Expressions.SortByFilterOrder: sort the
expressions by the less function of the cost table, key, value. -/
def SortByFilterOrder (e : List Expression) : List Expression :=
  e.insertionSort filterOrderLE

/-- exprView is the observable triple (operator, key, value) of an
expression, the data the sort comparator and expression equality consult. -/
def exprView (a : Expression) : ExpressionOperator × String × String :=
  (a.getOperator, a.getKey, a.getValue)

/-- specCostOrderLE spells out, following the claim's words, the order the
sorted collection must be ascending in: operator cost first, ties broken
by key and then by value, both lexicographically ascending. -/
def specCostOrderLE (a b : Expression) : Prop :=
  costByOperator a.getOperator < costByOperator b.getOperator ∨
    (costByOperator a.getOperator = costByOperator b.getOperator ∧
      (a.getKey < b.getKey ∨ (a.getKey = b.getKey ∧ a.getValue ≤ b.getValue)))

/-- viewLt is the strict lexicographic order on (cost, key, value) triples. -/
def viewLt (a b : Expression) : Prop :=
  costByOperator a.getOperator < costByOperator b.getOperator ∨
    (costByOperator a.getOperator = costByOperator b.getOperator ∧
      (a.getKey < b.getKey ∨ (a.getKey = b.getKey ∧ a.getValue < b.getValue)))

/-- StructParts is the structural decomposition of an expression text:
key, the not flag, the caret flag, the regex flag, and the value. -/
structure StructParts where
  key : String
  notFlag : Bool
  pfxFlag : Bool
  regexFlag : Bool
  value : String
deriving DecidableEq, Repr

/-- structureOf decomposes an expression text per the grammar of the spec:
the key is everything before the first of '=', '!', '^' and must be
non-empty and semicolon-free, an optional '!' or '^' flag must be followed
by '=', an optional '~' after the '=' sets the regex flag, '^' combined
with "=~" is invalid, and the remainder is the value, which must be
semicolon-free.  It returns none exactly for the structurally malformed
texts. -/
def structureOf (expr : String) : Option StructParts :=
  if ';' ∈ expr.toList.takeWhile keyChar then none
  else if expr.toList.takeWhile keyChar = [] then none
  else
    match expr.toList.dropWhile keyChar with
    | [] => none
    | t :: rest =>
      if t = '!' ∨ t = '^' then
        match rest with
        | [] => none
        | c2 :: rest2 =>
          if c2 = '=' then
            match rest2 with
            | [] =>
              some ⟨String.mk (expr.toList.takeWhile keyChar),
                decide (t = '!'), decide (t = '^'), false, String.mk []⟩
            | c3 :: rest3 =>
              if c3 = '~' then
                if t = '^' then none
                else if ';' ∈ rest3 then none
                else some ⟨String.mk (expr.toList.takeWhile keyChar),
                  decide (t = '!'), decide (t = '^'), true, String.mk rest3⟩
              else if ';' ∈ (c3 :: rest3) then none
              else some ⟨String.mk (expr.toList.takeWhile keyChar),
                decide (t = '!'), decide (t = '^'), false, String.mk (c3 :: rest3)⟩
          else none
      else
        match rest with
        | [] =>
          some ⟨String.mk (expr.toList.takeWhile keyChar), false, false,
            false, String.mk []⟩
        | c3 :: rest3 =>
          if c3 = '~' then
            if ';' ∈ rest3 then none
            else some ⟨String.mk (expr.toList.takeWhile keyChar), false, false,
              true, String.mk rest3⟩
          else if ';' ∈ (c3 :: rest3) then none
          else some ⟨String.mk (expr.toList.takeWhile keyChar), false, false,
            false, String.mk (c3 :: rest3)⟩

/-- specOperator spells out, following the claim's words, which operator
the parsed expression must carry: not with empty value gives HAS_TAG; not
with regex and non-empty value gives NOT_MATCH; not without regex and
non-empty value gives NOT_EQUAL; the caret flag with empty value gives
HAS_TAG; the caret flag with non-empty value gives PREFIX; neither flag
with empty value gives NOT_HAS_TAG; regex with non-empty value gives
MATCH; otherwise EQUAL; and for the reserved key __tag, PREFIX is
remapped to PREFIX_TAG and MATCH to MATCH_TAG. -/
def specOperator (p : StructParts) : ExpressionOperator :=
  let base :=
    if p.notFlag ∧ p.value = "" then .HAS_TAG
    else if p.notFlag ∧ p.regexFlag then .NOT_MATCH
    else if p.notFlag then .NOT_EQUAL
    else if p.pfxFlag ∧ p.value = "" then .HAS_TAG
    else if p.pfxFlag then .PREFIX
    else if p.value = "" then .NOT_HAS_TAG
    else if p.regexFlag then .MATCH
    else .EQUAL
  if p.key = "__tag" then
    if base = .PREFIX then .PREFIX_TAG
    else if base = .MATCH then .MATCH_TAG
    else base
  else base

/-- isRegexOperator is true for the three operators whose value is
compiled as a regular expression. -/
def isRegexOperator (op : ExpressionOperator) : Bool :=
  op = .MATCH ∨ op = .NOT_MATCH ∨ op = .MATCH_TAG

/-- specMalformed spells out, following the claim's words, when an
expression text must be rejected: the structural decomposition fails (a
';' in key or value, an empty key, no '=' after the key or flag, '^'
combined with "=~"), the key validator rejects the key, the reserved key
__tag is used with '!' or with an empty value, or the possibly rewritten
regex value fails to compile. -/
def specMalformed (vk : String → Option String) (comp : String → Except String RegexFn)
    (expr : String) : Prop :=
  match structureOf expr with
  | none => True
  | some p =>
    (vk p.key).isSome = true ∨
    (p.key = "__tag" ∧ (p.notFlag = true ∨ p.value = "")) ∨
    (isRegexOperator (specOperator p) = true ∧
      ∃ msg, comp (rewriteRegexValue p.value) = .error msg)

/-! Lemmas about the filter combinator. -/

theorem filtersFilter_all_none (name : String) (tags : List String) :
    ∀ m : List MetricDefinitionFilter, (∀ f ∈ m, f name tags = .None) →
      MetricDefinitionFiltersFilter m name tags = .None
  | [], _ => rfl
  | f :: fs, h => by
    have hf : f name tags = .None := h f (List.mem_cons_self _ _)
    unfold MetricDefinitionFiltersFilter
    rw [hf]
    simp only [reduceCtorEq, if_false]
    exact filtersFilter_all_none name tags fs fun g hg => h g (List.mem_cons_of_mem _ hg)

theorem filtersFilter_first (name : String) (tags : List String) :
    ∀ (pre : List MetricDefinitionFilter) (f : MetricDefinitionFilter)
      (post : List MetricDefinitionFilter), (∀ g ∈ pre, g name tags = .None) →
      f name tags ≠ .None →
      MetricDefinitionFiltersFilter (pre ++ f :: post) name tags = f name tags
  | [], f, post, _, hf => by
    unfold MetricDefinitionFiltersFilter
    simp only [List.nil_append]
    cases h : f name tags with
    | None => exact absurd h hf
    | Fail => simp
    | Pass => simp
  | g :: pre, f, post, hpre, hf => by
    have hg : g name tags = .None := hpre g (List.mem_cons_self _ _)
    unfold MetricDefinitionFiltersFilter
    simp only [List.cons_append]
    rw [hg]
    simp only [reduceCtorEq, if_false]
    exact filtersFilter_first name tags pre f post
      (fun g' hg' => hpre g' (List.mem_cons_of_mem _ hg')) hf

/-! Lemmas about the sort comparator. -/

theorem costByOperator_injective (o1 o2 : ExpressionOperator)
    (h : costByOperator o1 = costByOperator o2) : o1 = o2 := by
  revert h
  cases o1 <;> cases o2 <;> decide

theorem filterOrderLess_iff_viewLt (a b : Expression) :
    filterOrderLess a b = true ↔ viewLt a b := by
  unfold filterOrderLess viewLt
  by_cases hop : a.getOperator = b.getOperator
  · rw [if_pos hop]
    have hc : costByOperator a.getOperator = costByOperator b.getOperator := by rw [hop]
    by_cases hk : a.getKey = b.getKey
    · rw [if_pos hk]
      simp only [decide_eq_true_eq]
      constructor
      · intro h
        exact Or.inr ⟨hc, Or.inr ⟨hk, h⟩⟩
      · rintro (h | ⟨-, hk' | ⟨-, h⟩⟩)
        · exact absurd h (by rw [hc]; exact lt_irrefl _)
        · exact absurd hk' (by rw [hk]; exact lt_irrefl _)
        · exact h
    · rw [if_neg hk]
      simp only [decide_eq_true_eq]
      constructor
      · intro h
        exact Or.inr ⟨hc, Or.inl h⟩
      · rintro (h | ⟨-, h | ⟨hk', -⟩⟩)
        · exact absurd h (by rw [hc]; exact lt_irrefl _)
        · exact h
        · exact absurd hk' hk
  · rw [if_neg hop]
    have hc : costByOperator a.getOperator ≠ costByOperator b.getOperator :=
      fun h => hop (costByOperator_injective _ _ h)
    simp only [decide_eq_true_eq]
    constructor
    · exact fun h => Or.inl h
    · rintro (h | ⟨h, -⟩)
      · exact h
      · exact absurd h hc

theorem filterOrderLE_iff_specCostOrderLE (a b : Expression) :
    filterOrderLE a b ↔ specCostOrderLE a b := by
  unfold filterOrderLE
  rw [filterOrderLess_iff_viewLt b a]
  unfold viewLt specCostOrderLE
  constructor
  · intro h
    rcases lt_trichotomy (costByOperator a.getOperator) (costByOperator b.getOperator) with
      hc | hc | hc
    · exact Or.inl hc
    · refine Or.inr ⟨hc, ?_⟩
      rcases lt_trichotomy a.getKey b.getKey with hk | hk | hk
      · exact Or.inl hk
      · refine Or.inr ⟨hk, ?_⟩
        by_contra hv
        exact h (Or.inr ⟨hc.symm, Or.inr ⟨hk.symm, not_le.mp hv⟩⟩)
      · exact absurd (Or.inr ⟨hc.symm, Or.inl hk⟩) h
    · exact absurd (Or.inl hc) h
  · intro h hlt
    rcases h with hc | ⟨hc, hk⟩
    · rcases hlt with hc' | ⟨hc', -⟩
      · exact absurd hc (not_lt.mpr hc'.le)
      · exact absurd hc (not_lt.mpr hc'.le)
    · rcases hlt with hc' | ⟨-, hk'⟩
      · exact absurd hc' (not_lt.mpr hc.le)
      · rcases hk with hkl | ⟨hke, hvle⟩ <;> rcases hk' with hkl' | ⟨hke', hvl'⟩
        · exact absurd hkl (not_lt.mpr hkl'.le)
        · exact absurd hkl (not_lt.mpr hke'.le)
        · exact absurd hkl' (not_lt.mpr hke.le)
        · exact absurd hvl' (not_lt.mpr hvle)

instance : IsTotal Expression filterOrderLE := by
  constructor
  intro a b
  rw [filterOrderLE_iff_specCostOrderLE, filterOrderLE_iff_specCostOrderLE]
  unfold specCostOrderLE
  rcases lt_trichotomy (costByOperator a.getOperator) (costByOperator b.getOperator) with
    hc | hc | hc
  · exact Or.inl (Or.inl hc)
  · rcases lt_trichotomy a.getKey b.getKey with hk | hk | hk
    · exact Or.inl (Or.inr ⟨hc, Or.inl hk⟩)
    · rcases le_total a.getValue b.getValue with hv | hv
      · exact Or.inl (Or.inr ⟨hc, Or.inr ⟨hk, hv⟩⟩)
      · exact Or.inr (Or.inr ⟨hc.symm, Or.inr ⟨hk.symm, hv⟩⟩)
    · exact Or.inr (Or.inr ⟨hc.symm, Or.inl hk⟩)
  · exact Or.inr (Or.inl hc)

instance : IsTrans Expression filterOrderLE := by
  constructor
  intro a b c
  rw [filterOrderLE_iff_specCostOrderLE, filterOrderLE_iff_specCostOrderLE,
    filterOrderLE_iff_specCostOrderLE]
  unfold specCostOrderLE
  rintro (h1 | ⟨h1, h1'⟩) (h2 | ⟨h2, h2'⟩)
  · exact Or.inl (h1.trans h2)
  · exact Or.inl (h2 ▸ h1)
  · exact Or.inl (h1 ▸ h2)
  · refine Or.inr ⟨h1.trans h2, ?_⟩
    rcases h1' with hk1 | ⟨hk1, hv1⟩ <;> rcases h2' with hk2 | ⟨hk2, hv2⟩
    · exact Or.inl (hk1.trans hk2)
    · exact Or.inl (hk2 ▸ hk1)
    · exact Or.inl (hk1 ▸ hk2)
    · exact Or.inr ⟨hk1.trans hk2, hv1.trans hv2⟩

/-! Lemmas about the NOT_MATCH filter loop and its cache. -/

theorem emptyFilterCache_faithful (e : expressionNotMatch) : Faithful e emptyFilterCache :=
  ⟨fun v hv => absurd hv (List.not_mem_nil v), fun v hv => absurd hv (List.not_mem_nil v)⟩

theorem notMatchFilterLoop_decision (e : expressionNotMatch) (mcs : Int)
    (cache : FilterCache) (hf : Faithful e cache) :
    ∀ tags, (notMatchFilterLoop e mcs cache tags).1 =
      match firstTagValue e.key tags with
      | none => .None
      | some v => if e.value = "" then .Pass else if e.valueRe v then .Fail else .Pass
  | [] => rfl
  | tag :: rest => by
    unfold notMatchFilterLoop firstTagValue
    by_cases hp : strHasPfx tag (e.key ++ "=") = true
    · rw [hp]
      simp only [Bool.not_true, Bool.false_eq_true, if_false, if_true]
      by_cases hv : e.value = ""
      · rw [if_pos hv, if_pos hv]
      · rw [if_neg hv, if_neg hv]
        by_cases hmiss : strDrop tag (e.key ++ "=").length ∈ cache.missCache
        · rw [if_pos hmiss, hf.2 _ hmiss]
          simp
        · rw [if_neg hmiss]
          by_cases hmatch : strDrop tag (e.key ++ "=").length ∈ cache.matchCache
          · rw [if_pos hmatch, hf.1 _ hmatch]
            simp
          · rw [if_neg hmatch]
            by_cases hre : e.valueRe (strDrop tag (e.key ++ "=").length) = true
            · rw [if_pos hre, hre]
              simp
            · have hre' : e.valueRe (strDrop tag (e.key ++ "=").length) = false := by
                simpa using hre
              rw [if_neg hre, hre']
              simp
    · have hp' : strHasPfx tag (e.key ++ "=") = false := by simpa using hp
      rw [hp']
      simp only [Bool.not_false, if_true, Bool.false_eq_true, if_false]
      exact notMatchFilterLoop_decision e mcs cache hf rest

theorem notMatchFilterLoop_preserves_faithful (e : expressionNotMatch) (mcs : Int) :
    ∀ (cache : FilterCache), Faithful e cache →
      ∀ tags, Faithful e (notMatchFilterLoop e mcs cache tags).2
  | cache, hf, [] => hf
  | cache, hf, tag :: rest => by
    unfold notMatchFilterLoop
    by_cases hp : strHasPfx tag (e.key ++ "=") = true
    · rw [hp]
      simp only [Bool.not_true, Bool.false_eq_true, if_false]
      by_cases hv : e.value = ""
      · rw [if_pos hv]; exact hf
      · rw [if_neg hv]
        by_cases hmiss : strDrop tag (e.key ++ "=").length ∈ cache.missCache
        · rw [if_pos hmiss]; exact hf
        · rw [if_neg hmiss]
          by_cases hmatch : strDrop tag (e.key ++ "=").length ∈ cache.matchCache
          · rw [if_pos hmatch]; exact hf
          · rw [if_neg hmatch]
            by_cases hre : e.valueRe (strDrop tag (e.key ++ "=").length) = true
            · rw [if_pos hre]
              by_cases hsz : cache.currentMatchCacheSize < mcs
              · rw [if_pos hsz]
                refine ⟨fun v hvm => ?_, hf.2⟩
                rcases List.mem_cons.mp hvm with h | h
                · exact h ▸ hre
                · exact hf.1 v h
              · rw [if_neg hsz]; exact hf
            · rw [if_neg hre]
              by_cases hsz : cache.currentMissCacheSize < mcs
              · rw [if_pos hsz]
                refine ⟨hf.1, fun v hvm => ?_⟩
                rcases List.mem_cons.mp hvm with h | h
                · have hre' : e.valueRe (strDrop tag (e.key ++ "=").length) = false := by
                    simpa using hre
                  exact h ▸ hre'
                · exact hf.2 v h
              · rw [if_neg hsz]; exact hf
    · have hp' : strHasPfx tag (e.key ++ "=") = false := by simpa using hp
      rw [hp']
      simp only [Bool.not_false, if_true]
      exact notMatchFilterLoop_preserves_faithful e mcs cache hf rest

theorem firstTagValue_append_first (key : String) (t : String)
    (ht : strHasPfx t (key ++ "=") = true) :
    ∀ (pre : List String), (∀ u ∈ pre, strHasPfx u (key ++ "=") = false) →
      ∀ post, firstTagValue key (pre ++ t :: post) = some (strDrop t (key ++ "=").length)
  | [], _, post => by
    unfold firstTagValue
    rw [List.nil_append]
    simp only [ht, if_true]
  | u :: pre, hpre, post => by
    unfold firstTagValue
    rw [List.cons_append]
    simp only [hpre u (List.mem_cons_self _ _), Bool.false_eq_true, if_false]
    exact firstTagValue_append_first key t ht pre
      (fun u' hu' => hpre u' (List.mem_cons_of_mem _ hu')) post

/-! Claim theorems C8, C9, C10 and their witnesses. -/

/-- C8: For every list of filters and every (name, tags) input,
MetricDefinitionFilters.Filter returns the decision of the first filter in
list order whose result is Fail or Pass (no later filter is consulted),
and returns None when every filter in the list returns None. -/
theorem claim_C8_filtersFilter_short_circuit (m : List MetricDefinitionFilter)
    (name : String) (tags : List String) :
    ((∀ f ∈ m, f name tags = .None) → MetricDefinitionFiltersFilter m name tags = .None) ∧
    (∀ (pre : List MetricDefinitionFilter) (f : MetricDefinitionFilter)
       (post : List MetricDefinitionFilter), m = pre ++ f :: post →
       (∀ g ∈ pre, g name tags = .None) → f name tags ≠ .None →
       MetricDefinitionFiltersFilter m name tags = f name tags) := by
  refine ⟨filtersFilter_all_none name tags m, ?_⟩
  rintro pre f post rfl hpre hf
  exact filtersFilter_first name tags pre f post hpre hf

/-- Witness for C8: the filters [None, Fail, Pass] combine to Fail and
the filters [None, None] combine to None, per the spec's examples. -/
theorem claim_C8_filtersFilter_short_circuit_witness :
    MetricDefinitionFiltersFilter
      [fun _ _ => .None, fun _ _ => .Fail, fun _ _ => .Pass] "n" ["t"] = .Fail ∧
    MetricDefinitionFiltersFilter [fun _ _ => .None, fun _ _ => .None] "n" ["t"] = .None := by
  constructor
  · exact (claim_C8_filtersFilter_short_circuit
        [fun _ _ => .None, fun _ _ => .Fail, fun _ _ => .Pass] "n" ["t"]).2
      [fun _ _ => .None] (fun _ _ => .Fail) [fun _ _ => .Pass] rfl
      (by intro g hg; rw [List.mem_singleton] at hg; subst hg; rfl)
      (by intro h; exact absurd h (by simp))
  · exact (claim_C8_filtersFilter_short_circuit
        [fun _ _ => .None, fun _ _ => .None] "n" ["t"]).1
      (by intro f hf
          rcases List.mem_cons.mp hf with h | h
          · subst h; rfl
          · rw [List.mem_singleton] at h; subst h; rfl)

/-- C9: SortByFilterOrder stably reorders an Expressions collection into a
permutation of the input that is ascending by operator cost (MATCH_NONE=0,
EQUAL=1, HAS_TAG=2, PREFIX=3, PREFIX_TAG=4, NOT_EQUAL=5, NOT_HAS_TAG=6,
MATCH=7, MATCH_TAG=8, NOT_MATCH=9, MATCH_ALL=10), with ties broken by key
then by value, both ascending lexicographically.  Stability is stated the
canonical way: any sublist already in filter order stays a sublist of the
output, so elements tied under the comparator keep their relative order. -/
theorem claim_C9_sortByFilterOrder (l : List Expression) :
    (SortByFilterOrder l).Perm l ∧
    List.Sorted specCostOrderLE (SortByFilterOrder l) ∧
    (costByOperator .MATCH_NONE = 0 ∧ costByOperator .EQUAL = 1 ∧
      costByOperator .HAS_TAG = 2 ∧ costByOperator .PREFIX = 3 ∧
      costByOperator .PREFIX_TAG = 4 ∧ costByOperator .NOT_EQUAL = 5 ∧
      costByOperator .NOT_HAS_TAG = 6 ∧ costByOperator .MATCH = 7 ∧
      costByOperator .MATCH_TAG = 8 ∧ costByOperator .NOT_MATCH = 9 ∧
      costByOperator .MATCH_ALL = 10) ∧
    (∀ c : List Expression, c.Pairwise filterOrderLE → c.Sublist l →
      c.Sublist (SortByFilterOrder l)) := by
  refine ⟨List.perm_insertionSort _ _, ?_, by decide, ?_⟩
  · exact (List.sorted_insertionSort filterOrderLE l).imp
      fun h => (filterOrderLE_iff_specCostOrderLE _ _).mp h
  · intro c hp hs
    exact List.sublist_insertionSort hp hs

/-- Witness for C9 at a concrete collection: sorting
[NOT_MATCH(a), EQUAL(b), EQUAL(b)] yields a permutation, and the two tied
EQUAL expressions keep their relative order. -/
theorem claim_C9_sortByFilterOrder_witness :
    (SortByFilterOrder [.notMatch ⟨"a", "^(?:x)", false, fun _ => false⟩,
        .plainVariant .EQUAL "b" "v", .plainVariant .EQUAL "b" "v"]).Perm
      [.notMatch ⟨"a", "^(?:x)", false, fun _ => false⟩,
        .plainVariant .EQUAL "b" "v", .plainVariant .EQUAL "b" "v"] ∧
    ([.plainVariant .EQUAL "b" "v", .plainVariant .EQUAL "b" "v"] : List Expression).Sublist
      (SortByFilterOrder [.notMatch ⟨"a", "^(?:x)", false, fun _ => false⟩,
        .plainVariant .EQUAL "b" "v", .plainVariant .EQUAL "b" "v"]) := by
  have h := claim_C9_sortByFilterOrder [.notMatch ⟨"a", "^(?:x)", false, fun _ => false⟩,
    .plainVariant .EQUAL "b" "v", .plainVariant .EQUAL "b" "v"]
  refine ⟨h.1, h.2.2.2 [.plainVariant .EQUAL "b" "v", .plainVariant .EQUAL "b" "v"] ?_ ?_⟩
  · refine List.pairwise_cons.mpr ⟨?_, List.pairwise_singleton _ _⟩
    intro b hb
    rw [List.mem_singleton] at hb
    subst hb
    rw [filterOrderLE_iff_specCostOrderLE]
    exact Or.inr ⟨rfl, Or.inr ⟨rfl, le_refl _⟩⟩
  · exact List.Sublist.cons _ (List.Sublist.refl _)

/-- C10: For a NOT_MATCH expression whose key is not "name", the filter's
decision on a tag list is determined solely by the first tag starting with
key ++ "=": it is the conclusive decision for that tag's value (Pass for
an empty expression value, else Fail exactly when the pattern matches),
it is never None, and the tags after the first occurrence are never
examined (replacing them changes nothing). -/
theorem claim_C10_first_tag_determines (e : expressionNotMatch) (mcs : Int)
    (cache : FilterCache) (name : String) (pre post post' : List String) (t : String)
    (hkey : e.key ≠ "name") (hf : Faithful e cache)
    (ht : strHasPfx t (e.key ++ "=") = true)
    (hpre : ∀ u ∈ pre, strHasPfx u (e.key ++ "=") = false) :
    (e.GetMetricDefinitionFilter mcs cache name (pre ++ t :: post)).1 =
      (if e.value = "" then .Pass
       else if e.valueRe (strDrop t (e.key ++ "=").length) then .Fail else .Pass) ∧
    (e.GetMetricDefinitionFilter mcs cache name (pre ++ t :: post)).1 ≠ .None ∧
    (e.GetMetricDefinitionFilter mcs cache name (pre ++ t :: post)).1 =
      (e.GetMetricDefinitionFilter mcs cache name (pre ++ t :: post')).1 := by
  have hmain : ∀ q : List String,
      (e.GetMetricDefinitionFilter mcs cache name (pre ++ t :: q)).1 =
        (if e.value = "" then FilterDecision.Pass
         else if e.valueRe (strDrop t (e.key ++ "=").length) then .Fail else .Pass) := by
    intro q
    unfold expressionNotMatch.GetMetricDefinitionFilter
    rw [if_neg hkey]
    rw [notMatchFilterLoop_decision e mcs cache hf]
    rw [firstTagValue_append_first e.key t ht pre hpre q]
  refine ⟨hmain post, ?_, (hmain post).trans (hmain post').symm⟩
  rw [hmain post]
  by_cases hv : e.value = ""
  · rw [if_pos hv]; simp
  · rw [if_neg hv]
    by_cases hre : e.valueRe (strDrop t (e.key ++ "=").length) = true
    · rw [if_pos hre]; simp
    · rw [if_neg hre]; simp

/-- Witness for C10 at a concrete expression, cache and tag list. -/
theorem claim_C10_first_tag_determines_witness :
    ((⟨"host", "^(?:web)", false, fun s => strHasPfx s "web"⟩ :
        expressionNotMatch).GetMetricDefinitionFilter 100 emptyFilterCache "m"
      (["env=prod"] ++ "host=web01" :: ["host=db01"])).1 = .Fail := by
  have h := claim_C10_first_tag_determines
    ⟨"host", "^(?:web)", false, fun s => strHasPfx s "web"⟩ 100 emptyFilterCache "m"
    ["env=prod"] ["host=db01"] [] "host=web01"
    (by decide)
    (emptyFilterCache_faithful _)
    (by decide)
    (by intro u hu; rw [List.mem_singleton] at hu; subst hu; decide)
  exact h.1.trans (by decide)

/-! Bridge between ParseExpression and the structural decomposition. -/

theorem parse_of_structureOf_some (vk : String → Option String)
    (comp : String → Except String RegexFn) (expr : String) (p : StructParts)
    (h : structureOf expr = some p) :
    ParseExpression vk comp expr =
      match vk p.key with
      | some msg => .error (.keyValidation p.key expr msg)
      | none => parseTail comp expr p.key p.notFlag p.pfxFlag p.regexFlag p.value.toList := by
  unfold structureOf at h
  unfold ParseExpression
  by_cases h1 : ';' ∈ expr.toList.takeWhile keyChar
  · rw [if_pos h1] at h
    exact absurd h (by simp)
  · rw [if_neg h1] at h ⊢
    by_cases h2 : expr.toList.takeWhile keyChar = []
    · rw [if_pos h2] at h
      exact absurd h (by simp)
    · rw [if_neg h2] at h ⊢
      cases hd : expr.toList.dropWhile keyChar with
      | nil =>
        rw [hd] at h
        exact absurd h (by simp)
      | cons t rest =>
        rw [hd] at h
        try dsimp only at h ⊢
        by_cases h3 : t = '!' ∨ t = '^'
        · rw [if_pos h3] at h ⊢
          cases rest with
          | nil => exact absurd h (by simp)
          | cons c2 rest2 =>
            try dsimp only at h ⊢
            by_cases h4 : c2 = '='
            · rw [if_pos h4] at h ⊢
              cases rest2 with
              | nil =>
                try dsimp only at h ⊢
                injection h with h
                subst h
                rfl
              | cons c3 rest3 =>
                try dsimp only at h ⊢
                by_cases h5 : c3 = '~'
                · rw [if_pos h5] at h ⊢
                  by_cases h6 : t = '^'
                  · rw [if_pos h6] at h
                    exact absurd h (by simp)
                  · rw [if_neg h6] at h ⊢
                    by_cases h7 : ';' ∈ rest3
                    · rw [if_pos h7] at h
                      exact absurd h (by simp)
                    · rw [if_neg h7] at h
                      injection h with h
                      subst h
                      rfl
                · rw [if_neg h5] at h ⊢
                  by_cases h7 : ';' ∈ (c3 :: rest3)
                  · rw [if_pos h7] at h
                    exact absurd h (by simp)
                  · rw [if_neg h7] at h
                    injection h with h
                    subst h
                    rfl
            · rw [if_neg h4] at h
              exact absurd h (by simp)
        · rw [if_neg h3] at h ⊢
          cases rest with
          | nil =>
            try dsimp only at h ⊢
            injection h with h
            subst h
            rfl
          | cons c3 rest3 =>
            try dsimp only at h ⊢
            by_cases h5 : c3 = '~'
            · rw [if_pos h5] at h ⊢
              by_cases h7 : ';' ∈ rest3
              · rw [if_pos h7] at h
                exact absurd h (by simp)
              · rw [if_neg h7] at h
                injection h with h
                subst h
                rfl
            · rw [if_neg h5] at h ⊢
              by_cases h7 : ';' ∈ (c3 :: rest3)
              · rw [if_pos h7] at h
                exact absurd h (by simp)
              · rw [if_neg h7] at h
                injection h with h
                subst h
                rfl

theorem parse_err_of_structureOf_none (vk : String → Option String)
    (comp : String → Except String RegexFn) (expr : String)
    (h : structureOf expr = none) :
    ∃ err, ParseExpression vk comp expr = .error err ∧
      (err = .invalidExpression expr ∨
        ∃ msg, err = .keyValidation (String.mk (expr.toList.takeWhile keyChar)) expr msg) := by
  unfold structureOf at h
  unfold ParseExpression
  by_cases h1 : ';' ∈ expr.toList.takeWhile keyChar
  · rw [if_pos h1]
    exact ⟨_, rfl, Or.inl rfl⟩
  · rw [if_neg h1] at h ⊢
    by_cases h2 : expr.toList.takeWhile keyChar = []
    · rw [if_pos h2]
      exact ⟨_, rfl, Or.inl rfl⟩
    · rw [if_neg h2] at h ⊢
      cases hvk : vk (String.mk (expr.toList.takeWhile keyChar)) with
      | some msg =>
        exact ⟨_, rfl, Or.inr ⟨msg, rfl⟩⟩
      | none =>
        try dsimp only
        cases hd : expr.toList.dropWhile keyChar with
        | nil =>
          exact ⟨_, rfl, Or.inl rfl⟩
        | cons t rest =>
          rw [hd] at h
          try dsimp only at h ⊢
          by_cases h3 : t = '!' ∨ t = '^'
          · rw [if_pos h3] at h ⊢
            cases rest with
            | nil => exact ⟨_, rfl, Or.inl rfl⟩
            | cons c2 rest2 =>
              try dsimp only at h ⊢
              by_cases h4 : c2 = '='
              · rw [if_pos h4] at h ⊢
                cases rest2 with
                | nil => exact absurd h (by simp)
                | cons c3 rest3 =>
                  try dsimp only at h ⊢
                  by_cases h5 : c3 = '~'
                  · rw [if_pos h5] at h ⊢
                    by_cases h6 : t = '^'
                    · rw [if_pos h6]
                      exact ⟨_, rfl, Or.inl rfl⟩
                    · rw [if_neg h6] at h ⊢
                      by_cases h7 : ';' ∈ rest3
                      · refine ⟨.invalidExpression expr, ?_, Or.inl rfl⟩
                        unfold parseTail
                        rw [if_pos h7]
                      · rw [if_neg h7] at h
                        exact absurd h (by simp)
                  · rw [if_neg h5] at h ⊢
                    by_cases h7 : ';' ∈ (c3 :: rest3)
                    · refine ⟨.invalidExpression expr, ?_, Or.inl rfl⟩
                      unfold parseTail
                      rw [if_pos h7]
                    · rw [if_neg h7] at h
                      exact absurd h (by simp)
              · rw [if_neg h4]
                exact ⟨_, rfl, Or.inl rfl⟩
          · rw [if_neg h3] at h ⊢
            cases rest with
            | nil => exact absurd h (by simp)
            | cons c3 rest3 =>
              try dsimp only at h ⊢
              by_cases h5 : c3 = '~'
              · rw [if_pos h5] at h ⊢
                by_cases h7 : ';' ∈ rest3
                · refine ⟨.invalidExpression expr, ?_, Or.inl rfl⟩
                  unfold parseTail
                  rw [if_pos h7]
                · rw [if_neg h7] at h
                  exact absurd h (by simp)
              · rw [if_neg h5] at h ⊢
                by_cases h7 : ';' ∈ (c3 :: rest3)
                · refine ⟨.invalidExpression expr, ?_, Or.inl rfl⟩
                  unfold parseTail
                  rw [if_pos h7]
                · rw [if_neg h7] at h
                  exact absurd h (by simp)

theorem parse_ok_inv (vk : String → Option String)
    (comp : String → Except String RegexFn) (expr : String) (ex : Expression)
    (h : ParseExpression vk comp expr = .ok ex) :
    ∃ p, structureOf expr = some p ∧ vk p.key = none ∧
      parseTail comp expr p.key p.notFlag p.pfxFlag p.regexFlag p.value.toList = .ok ex := by
  cases hs : structureOf expr with
  | none =>
    obtain ⟨err, herr, -⟩ := parse_err_of_structureOf_none vk comp expr hs
    rw [herr] at h
    exact absurd h (by simp)
  | some p =>
    have hb := parse_of_structureOf_some vk comp expr p hs
    cases hvk : vk p.key with
    | some msg =>
      rw [hb, hvk] at h
      exact absurd h (by simp)
    | none =>
      rw [hb, hvk] at h
      exact ⟨p, rfl, hvk, h⟩

theorem structureOf_some_inv (expr : String) (p : StructParts)
    (h : structureOf expr = some p) :
    ';' ∉ p.value.toList ∧ (p.notFlag = true → p.pfxFlag = false) := by
  unfold structureOf at h
  by_cases h1 : ';' ∈ expr.toList.takeWhile keyChar
  · rw [if_pos h1] at h
    exact absurd h (by simp)
  · rw [if_neg h1] at h
    by_cases h2 : expr.toList.takeWhile keyChar = []
    · rw [if_pos h2] at h
      exact absurd h (by simp)
    · rw [if_neg h2] at h
      cases hd : expr.toList.dropWhile keyChar with
      | nil =>
        rw [hd] at h
        exact absurd h (by simp)
      | cons t rest =>
        rw [hd] at h
        try dsimp only at h
        by_cases h3 : t = '!' ∨ t = '^'
        · rw [if_pos h3] at h
          cases rest with
          | nil => exact absurd h (by simp)
          | cons c2 rest2 =>
            try dsimp only at h
            by_cases h4 : c2 = '='
            · rw [if_pos h4] at h
              cases rest2 with
              | nil =>
                try dsimp only at h
                injection h with h
                subst h
                refine ⟨List.not_mem_nil _, ?_⟩
                intro ht
                have ht' : t = '!' := of_decide_eq_true ht
                subst ht'
                rfl
              | cons c3 rest3 =>
                try dsimp only at h
                by_cases h5 : c3 = '~'
                · rw [if_pos h5] at h
                  by_cases h6 : t = '^'
                  · rw [if_pos h6] at h
                    exact absurd h (by simp)
                  · rw [if_neg h6] at h
                    by_cases h7 : ';' ∈ rest3
                    · rw [if_pos h7] at h
                      exact absurd h (by simp)
                    · rw [if_neg h7] at h
                      injection h with h
                      subst h
                      refine ⟨h7, ?_⟩
                      intro ht
                      have ht' : t = '!' := of_decide_eq_true ht
                      subst ht'
                      rfl
                · rw [if_neg h5] at h
                  by_cases h7 : ';' ∈ (c3 :: rest3)
                  · rw [if_pos h7] at h
                    exact absurd h (by simp)
                  · rw [if_neg h7] at h
                    injection h with h
                    subst h
                    refine ⟨h7, ?_⟩
                    intro ht
                    have ht' : t = '!' := of_decide_eq_true ht
                    subst ht'
                    rfl
            · rw [if_neg h4] at h
              exact absurd h (by simp)
        · rw [if_neg h3] at h
          cases rest with
          | nil =>
            try dsimp only at h
            injection h with h
            subst h
            exact ⟨List.not_mem_nil _, fun ht => by simp at ht⟩
          | cons c3 rest3 =>
            try dsimp only at h
            by_cases h5 : c3 = '~'
            · rw [if_pos h5] at h
              by_cases h7 : ';' ∈ rest3
              · rw [if_pos h7] at h
                exact absurd h (by simp)
              · rw [if_neg h7] at h
                injection h with h
                subst h
                exact ⟨h7, fun ht => by simp at ht⟩
            · rw [if_neg h5] at h
              by_cases h7 : ';' ∈ (c3 :: rest3)
              · rw [if_pos h7] at h
                exact absurd h (by simp)
              · rw [if_neg h7] at h
                injection h with h
                subst h
                exact ⟨h7, fun ht => by simp at ht⟩

/-! Lemmas about the construction tail of the parser. -/

theorem finalOperator_eq_notMatch (keyS : String) (nf pf rf ve : Bool)
    (h : finalOperator keyS nf pf rf ve = .NOT_MATCH) :
    nf = true ∧ rf = true ∧ ve = false := by
  unfold finalOperator at h
  by_cases hk : keyS = "__tag"
  · rw [if_pos hk] at h
    revert h
    cases nf <;> cases pf <;> cases rf <;> cases ve <;> decide
  · rw [if_neg hk] at h
    revert h
    cases nf <;> cases pf <;> cases rf <;> cases ve <;> decide

theorem finalOperator_ne_sentinel (keyS : String) (nf pf rf ve : Bool) :
    finalOperator keyS nf pf rf ve ≠ .MATCH_ALL ∧
      finalOperator keyS nf pf rf ve ≠ .MATCH_NONE := by
  unfold finalOperator
  by_cases hk : keyS = "__tag"
  · rw [if_pos hk]
    cases nf <;> cases pf <;> cases rf <;> cases ve <;> decide
  · rw [if_neg hk]
    cases nf <;> cases pf <;> cases rf <;> cases ve <;> decide

theorem finalOperator_eq_spec (key value : String) (nf pf rf : Bool) :
    finalOperator key nf pf rf (decide (value = "")) =
      specOperator ⟨key, nf, pf, rf, value⟩ := by
  unfold finalOperator specOperator
  by_cases hk : key = "__tag" <;> by_cases hv : value = "" <;>
    cases nf <;> cases pf <;> cases rf <;>
    simp [hk, hv, deriveOperator, remapTag]

theorem constructExpression_ok_operator (comp : String → Except String RegexFn)
    (expr keyS : String) (op : ExpressionOperator) (value : String) (ex : Expression)
    (h : constructExpression comp expr keyS op value = .ok ex) :
    ex.getOperator = op := by
  unfold constructExpression at h
  by_cases hop : op = .MATCH ∨ op = .NOT_MATCH ∨ op = .MATCH_TAG
  · rw [if_pos hop] at h
    cases hc : comp (rewriteRegexValue value) with
    | error msg =>
      rw [hc] at h
      exact absurd h (by simp)
    | ok re =>
      rw [hc] at h
      rcases hop with h1 | h1 | h1 <;> subst h1 <;>
        (injection h with h; subst h; rfl)
  · rw [if_neg hop] at h
    cases op <;> first
      | (injection h with h2; subst h2; rfl)
      | (exact absurd h (by simp))

theorem constructExpression_ok_notMatch (comp : String → Except String RegexFn)
    (expr keyS : String) (op : ExpressionOperator) (value : String)
    (e : expressionNotMatch)
    (h : constructExpression comp expr keyS op value = .ok (.notMatch e)) :
    op = .NOT_MATCH ∧ ∃ re, comp (rewriteRegexValue value) = .ok re ∧
      e = ⟨keyS, rewriteRegexValue value, false, re⟩ := by
  unfold constructExpression at h
  by_cases hop : op = .MATCH ∨ op = .NOT_MATCH ∨ op = .MATCH_TAG
  · rw [if_pos hop] at h
    cases hc : comp (rewriteRegexValue value) with
    | error msg =>
      rw [hc] at h
      exact absurd h (by simp)
    | ok re =>
      rw [hc] at h
      rcases hop with h1 | h1 | h1 <;> subst h1
      · exact absurd h (by simp)
      · refine ⟨rfl, re, rfl, ?_⟩
        injection h with h
        injection h with h
        exact h.symm
      · exact absurd h (by simp)
  · rw [if_neg hop] at h
    cases op <;> exact absurd h (by simp)

theorem parseTail_ok_elim (comp : String → Except String RegexFn)
    (expr keyS : String) (nf pf rf : Bool) (valueChars : List Char) (ex : Expression)
    (h : parseTail comp expr keyS nf pf rf valueChars = .ok ex) :
    ';' ∉ valueChars ∧ ¬(keyS = "__tag" ∧ (nf = true ∨ String.mk valueChars = "")) ∧
      constructExpression comp expr keyS
        (finalOperator keyS nf pf rf (String.mk valueChars = ""))
        (String.mk valueChars) = .ok ex := by
  unfold parseTail at h
  by_cases h1 : ';' ∈ valueChars
  · rw [if_pos h1] at h
    exact absurd h (by simp)
  · rw [if_neg h1] at h
    by_cases h2 : keyS = "__tag" ∧ (nf = true ∨ String.mk valueChars = "")
    · rw [if_pos h2] at h
      exact absurd h (by simp)
    · rw [if_neg h2] at h
      exact ⟨h1, h2, h⟩

theorem parse_ok_notMatch_inv (vk : String → Option String)
    (comp : String → Except String RegexFn) (expr : String) (e : expressionNotMatch)
    (h : ParseExpression vk comp expr = .ok (.notMatch e)) :
    ∃ k v re, structureOf expr = some ⟨k, true, false, true, v⟩ ∧ v ≠ "" ∧
      k ≠ "__tag" ∧ vk k = none ∧ comp (rewriteRegexValue v) = .ok re ∧
      e = ⟨k, rewriteRegexValue v, false, re⟩ := by
  obtain ⟨p, hs, hvk, ht⟩ := parse_ok_inv vk comp expr _ h
  obtain ⟨pk, pn, pp, pr, pv⟩ := p
  obtain ⟨h1, h2, h3⟩ := parseTail_ok_elim _ _ _ _ _ _ _ _ ht
  obtain ⟨hop, re, hre, he⟩ := constructExpression_ok_notMatch _ _ _ _ _ _ h3
  obtain ⟨hnf, hrf, hve⟩ := finalOperator_eq_notMatch _ _ _ _ _ hop
  subst hnf
  subst hrf
  have hpf : pp = false := (structureOf_some_inv expr _ hs).2 rfl
  subst hpf
  have hv : pv ≠ "" := of_decide_eq_false hve
  have hk : pk ≠ "__tag" := fun hk0 => h2 ⟨hk0, Or.inl rfl⟩
  exact ⟨pk, pv, re, hs, hv, hk, hvk, hre, he⟩

/-! Lemmas about the anchoring rewrite. -/

theorem caretToList : ("^" : String).toList = ['^'] := rfl

theorem rewriteRegexValue_of_not_caret (v : String) (hv : v ≠ "")
    (h : strHasPfx v "^" = false) : rewriteRegexValue v = "^(?:" ++ v ++ ")" := by
  unfold strHasPfx at h
  unfold rewriteRegexValue
  cases hl : v.toList with
  | nil => exact absurd (String.ext hl) hv
  | cons c cs =>
    rw [hl, caretToList] at h
    have hc : ¬ c = '^' := by
      intro hc0
      subst hc0
      simp [List.isPrefixOf] at h
    dsimp only
    rw [if_neg hc]

theorem rewriteRegexValue_of_caret (v : String) (h : strHasPfx v "^" = true) :
    rewriteRegexValue v = v := by
  unfold strHasPfx at h
  unfold rewriteRegexValue
  cases hl : v.toList with
  | nil => rfl
  | cons c cs =>
    rw [hl, caretToList] at h
    have hc : c = '^' := by
      by_cases hc0 : c = '^'
      · exact hc0
      · exfalso
        simp [List.isPrefixOf] at h
        exact hc0 h.symm
    dsimp only
    rw [if_pos hc]

theorem strHasPfx_anchored (v : String) : strHasPfx ("^(?:" ++ v ++ ")") "^" = true := by
  unfold strHasPfx
  rw [caretToList]
  obtain ⟨l⟩ := v
  simp [String.toList, List.isPrefixOf]

theorem rewriteRegexValue_ne_empty (v : String) (hv : v ≠ "") :
    rewriteRegexValue v ≠ "" := by
  unfold rewriteRegexValue
  cases hl : v.toList with
  | nil => exact absurd (String.ext hl) hv
  | cons c cs =>
    dsimp only
    by_cases hc : c = '^'
    · rw [if_pos hc]
      exact hv
    · rw [if_neg hc]
      intro h0
      have h1 := congrArg String.data h0
      simp [String.data_append] at h1

/-! Error-shape lemmas for the parser tail. -/

theorem constructExpression_error_inv (comp : String → Except String RegexFn)
    (expr keyS : String) (op : ExpressionOperator) (value : String) (err : GoErr)
    (hma : op ≠ .MATCH_ALL) (hmn : op ≠ .MATCH_NONE)
    (h : constructExpression comp expr keyS op value = .error err) :
    isRegexOperator op = true ∧ ∃ msg, comp (rewriteRegexValue value) = .error msg ∧
      err = .regexCompile msg := by
  unfold constructExpression at h
  by_cases hop : op = .MATCH ∨ op = .NOT_MATCH ∨ op = .MATCH_TAG
  · rw [if_pos hop] at h
    cases hc : comp (rewriteRegexValue value) with
    | error msg =>
      rw [hc] at h
      injection h with h
      exact ⟨decide_eq_true hop, msg, rfl, h.symm⟩
    | ok re =>
      rw [hc] at h
      rcases hop with h1 | h1 | h1 <;> subst h1 <;> exact absurd h (by simp)
  · rw [if_neg hop] at h
    cases op <;> first
      | (exact absurd (Or.inl rfl) hop)
      | (exact absurd (Or.inr (Or.inl rfl)) hop)
      | (exact absurd (Or.inr (Or.inr rfl)) hop)
      | (exact absurd rfl hma)
      | (exact absurd rfl hmn)
      | (exact absurd h (by simp))

theorem parseTail_error_inv (comp : String → Except String RegexFn)
    (expr keyS : String) (nf pf rf : Bool) (valueChars : List Char) (err : GoErr)
    (h : parseTail comp expr keyS nf pf rf valueChars = .error err) :
    (';' ∈ valueChars ∧ err = .invalidExpression expr) ∨
    ((keyS = "__tag" ∧ (nf = true ∨ String.mk valueChars = "")) ∧
      err = .invalidExpression expr) ∨
    (isRegexOperator (finalOperator keyS nf pf rf (String.mk valueChars = "")) = true ∧
      ∃ msg, comp (rewriteRegexValue (String.mk valueChars)) = .error msg ∧
        err = .regexCompile msg) := by
  unfold parseTail at h
  by_cases h1 : ';' ∈ valueChars
  · rw [if_pos h1] at h
    injection h with h
    exact Or.inl ⟨h1, h.symm⟩
  · rw [if_neg h1] at h
    by_cases h2 : keyS = "__tag" ∧ (nf = true ∨ String.mk valueChars = "")
    · rw [if_pos h2] at h
      injection h with h
      exact Or.inr (Or.inl ⟨h2, h.symm⟩)
    · rw [if_neg h2] at h
      obtain ⟨hma, hmn⟩ := finalOperator_ne_sentinel keyS nf pf rf (String.mk valueChars = "")
      exact Or.inr (Or.inr (constructExpression_error_inv _ _ _ _ _ _ hma hmn h))

theorem parseTail_ok_of_good (comp : String → Except String RegexFn)
    (expr keyS : String) (nf pf rf : Bool) (valueChars : List Char)
    (h1 : ';' ∉ valueChars)
    (h2 : ¬(keyS = "__tag" ∧ (nf = true ∨ String.mk valueChars = "")))
    (h3 : isRegexOperator (finalOperator keyS nf pf rf (String.mk valueChars = "")) = true →
      ∃ re, comp (rewriteRegexValue (String.mk valueChars)) = .ok re) :
    ∃ ex, parseTail comp expr keyS nf pf rf valueChars = .ok ex := by
  unfold parseTail
  rw [if_neg h1, if_neg h2]
  unfold constructExpression
  by_cases hop : finalOperator keyS nf pf rf (String.mk valueChars = "") = .MATCH ∨
      finalOperator keyS nf pf rf (String.mk valueChars = "") = .NOT_MATCH ∨
      finalOperator keyS nf pf rf (String.mk valueChars = "") = .MATCH_TAG
  · rw [if_pos hop]
    obtain ⟨re, hre⟩ := h3 (decide_eq_true hop)
    rw [hre]
    rcases hop with h4 | h4 | h4 <;> rw [h4] <;> exact ⟨_, rfl⟩
  · rw [if_neg hop]
    obtain ⟨hma, hmn⟩ := finalOperator_ne_sentinel keyS nf pf rf (String.mk valueChars = "")
    rcases ho : finalOperator keyS nf pf rf (String.mk valueChars = "") with
      _ | _ | _ | _ | _ | _ | _ | _ | _ | _ | _
    · exact ⟨_, rfl⟩
    · exact ⟨_, rfl⟩
    · exact absurd ho (fun hx => hop (Or.inl hx))
    · exact ⟨_, rfl⟩
    · exact absurd ho (fun hx => hop (Or.inr (Or.inl hx)))
    · exact ⟨_, rfl⟩
    · exact ⟨_, rfl⟩
    · exact ⟨_, rfl⟩
    · exact ⟨_, rfl⟩
    · exact absurd ho hma
    · exact absurd ho hmn

/-! Helper lemmas for producing parseTail errors. -/

theorem parseTail_err_misuse (comp : String → Except String RegexFn)
    (expr keyS : String) (nf pf rf : Bool) (valueChars : List Char)
    (h1 : ';' ∉ valueChars)
    (h2 : keyS = "__tag" ∧ (nf = true ∨ String.mk valueChars = "")) :
    parseTail comp expr keyS nf pf rf valueChars = .error (.invalidExpression expr) := by
  unfold parseTail
  rw [if_neg h1, if_pos h2]

theorem parseTail_err_compile (comp : String → Except String RegexFn)
    (expr keyS : String) (nf pf rf : Bool) (valueChars : List Char) (msg : String)
    (h1 : ';' ∉ valueChars)
    (h2 : ¬(keyS = "__tag" ∧ (nf = true ∨ String.mk valueChars = "")))
    (hop : finalOperator keyS nf pf rf (String.mk valueChars = "") = .MATCH ∨
      finalOperator keyS nf pf rf (String.mk valueChars = "") = .NOT_MATCH ∨
      finalOperator keyS nf pf rf (String.mk valueChars = "") = .MATCH_TAG)
    (hcomp : comp (rewriteRegexValue (String.mk valueChars)) = .error msg) :
    parseTail comp expr keyS nf pf rf valueChars = .error (.regexCompile msg) := by
  unfold parseTail constructExpression
  rw [if_neg h1, if_neg h2, if_pos hop, hcomp]

/-! General inversion lemmas for the three regex variants. -/

theorem constructExpression_ok_regex_shape (comp : String → Except String RegexFn)
    (expr keyS : String) (op : ExpressionOperator) (value : String) (ex : Expression)
    (hop : op = .MATCH ∨ op = .NOT_MATCH ∨ op = .MATCH_TAG)
    (h : constructExpression comp expr keyS op value = .ok ex) :
    ∃ re, comp (rewriteRegexValue value) = .ok re ∧
      (ex = .regexVariant .MATCH keyS (rewriteRegexValue value) re ∨
       ex = .notMatch ⟨keyS, rewriteRegexValue value, false, re⟩ ∨
       ex = .regexVariant .MATCH_TAG keyS (rewriteRegexValue value) re) := by
  unfold constructExpression at h
  rw [if_pos hop] at h
  cases hc : comp (rewriteRegexValue value) with
  | error msg =>
    rw [hc] at h
    exact absurd h (by simp)
  | ok re =>
    rw [hc] at h
    refine ⟨re, rfl, ?_⟩
    rcases hop with h1 | h1 | h1 <;> subst h1
    · injection h with h
      exact Or.inl h.symm
    · injection h with h
      exact Or.inr (Or.inl h.symm)
    · injection h with h
      exact Or.inr (Or.inr h.symm)

theorem parse_ok_operator (vk : String → Option String)
    (comp : String → Except String RegexFn) (expr : String) (ex : Expression)
    (h : ParseExpression vk comp expr = .ok ex) :
    (structureOf expr).map specOperator = some ex.getOperator := by
  obtain ⟨p, hs, hvk, ht⟩ := parse_ok_inv vk comp expr ex h
  obtain ⟨pk, pn, pp, pr, pv⟩ := p
  obtain ⟨h1, h2, h3⟩ := parseTail_ok_elim _ _ _ _ _ _ _ _ ht
  have hop := constructExpression_ok_operator _ _ _ _ _ _ h3
  rw [hs]
  simp only [Option.map_some']
  rw [hop]
  exact congrArg some (finalOperator_eq_spec pk pv pn pp pr).symm

theorem parse_ok_regex_inv (vk : String → Option String)
    (comp : String → Except String RegexFn) (expr : String) (ex : Expression)
    (h : ParseExpression vk comp expr = .ok ex)
    (hre : isRegexOperator ex.getOperator = true) :
    ∃ p re, structureOf expr = some p ∧ vk p.key = none ∧
      comp (rewriteRegexValue p.value) = .ok re ∧
      (ex = .regexVariant .MATCH p.key (rewriteRegexValue p.value) re ∨
       ex = .notMatch ⟨p.key, rewriteRegexValue p.value, false, re⟩ ∨
       ex = .regexVariant .MATCH_TAG p.key (rewriteRegexValue p.value) re) := by
  obtain ⟨p, hs, hvk, ht⟩ := parse_ok_inv vk comp expr ex h
  obtain ⟨h1, h2, h3⟩ := parseTail_ok_elim _ _ _ _ _ _ _ _ ht
  have hopeq := constructExpression_ok_operator _ _ _ _ _ _ h3
  rw [hopeq] at hre
  have hop := of_decide_eq_true hre
  obtain ⟨re, hcomp, hshape⟩ := constructExpression_ok_regex_shape _ _ _ _ _ _ hop h3
  exact ⟨p, re, hs, hvk, hcomp, hshape⟩

theorem specOperator_regex_shape (k v : String) (nf : Bool) (hv : v ≠ "") :
    isRegexOperator (specOperator ⟨k, nf, false, true, v⟩) = true := by
  unfold specOperator
  cases nf <;> by_cases hk : k = "__tag" <;> simp [hk, hv, isRegexOperator]

/-! Claim theorems C1 .. C7 and their witnesses and counterexamples. -/

/-- C1 counterexample: parsing "host!=~web" yields a NOT_MATCH expression
whose RequiresNonEmptyValue returns false, refuting the claim that every
NOT_MATCH expression returns true. -/
theorem claim_C1_counterexample :
    ((ParseExpression (fun _ => none) (fun p => .ok (fun s => decide (s = p)))
        "host!=~web").toOption.map
      (fun ex => (ex.getOperator, match ex with
        | .notMatch e => e.RequiresNonEmptyValue
        | _ => true))) = some (.NOT_MATCH, false) := by decide

/-- C1 (amended): for every expression with operator NOT_MATCH,
RequiresNonEmptyValue() returns false. -/
theorem claim_C1_requiresNonEmptyValue (e : expressionNotMatch) :
    e.RequiresNonEmptyValue = false := rfl

/-- C2 counterexample: parsing "host!=~web" stores the rewritten value
"^(?:web)", not the value "web" as written in the query text, and
StringIntoBuilder serializes the rewritten value as well, refuting the
claim that the constructed expression carries the pre-rewrite value. -/
theorem claim_C2_counterexample :
    ((ParseExpression (fun _ => none) (fun p => .ok (fun s => decide (s = p)))
        "host!=~web").toOption.map Expression.getValue) = some "^(?:web)" ∧
    ((ParseExpression (fun _ => none) (fun p => .ok (fun s => decide (s = p)))
        "host!=~web").toOption.map
      (fun ex => match ex with
        | .notMatch e => e.StringIntoBuilder ""
        | _ => "")) = some "host!=~^(?:web)" ∧
    ("^(?:web)" : String) ≠ "web" ∧
    ("host!=~^(?:web)" : String) ≠ "host!=~web" :=
  ⟨by decide, by decide, by decide, by decide⟩

/-- C2 (amended): every successfully parsed regex expression (operators
MATCH, NOT_MATCH, MATCH_TAG) carries the rewritten value: GetValue()
returns rewriteRegexValue of the value as written (the compiled pattern's
source), and StringIntoBuilder serializes key, the operator's token and
that rewritten value. -/
theorem claim_C2_value_is_rewritten (vk : String → Option String)
    (comp : String → Except String RegexFn) (expr : String) (ex : Expression)
    (h : ParseExpression vk comp expr = .ok ex)
    (hre : isRegexOperator ex.getOperator = true) :
    ∃ p, structureOf expr = some p ∧
      ex.getValue = rewriteRegexValue p.value ∧
      ex.stringIntoBuilder "" =
        p.key ++ ex.getOperator.StringIntoBuilder "" ++ rewriteRegexValue p.value := by
  obtain ⟨p, re, hs, hvk, hcomp, hshape⟩ := parse_ok_regex_inv vk comp expr ex h hre
  refine ⟨p, hs, ?_, ?_⟩ <;>
    rcases hshape with h1 | h1 | h1 <;> subst h1 <;>
      (apply String.ext
       simp [Expression.getValue, Expression.stringIntoBuilder,
         Expression.getOperator, expressionNotMatch.StringIntoBuilder,
         expressionNotMatch.GetOperator, ExpressionOperator.StringIntoBuilder,
         String.data_append])

/-- Witness for the amended C2 at the concrete input "host!=~web". -/
theorem claim_C2_value_is_rewritten_witness :
    ∃ p, structureOf "host!=~web" = some p ∧
      (Expression.notMatch ⟨"host", "^(?:web)", false,
        fun s => decide (s = "^(?:web)")⟩).getValue = rewriteRegexValue p.value ∧
      (Expression.notMatch ⟨"host", "^(?:web)", false,
        fun s => decide (s = "^(?:web)")⟩).stringIntoBuilder "" =
        p.key ++ (Expression.notMatch ⟨"host", "^(?:web)", false,
          fun s => decide (s = "^(?:web)")⟩).getOperator.StringIntoBuilder "" ++
          rewriteRegexValue p.value :=
  claim_C2_value_is_rewritten (fun _ => none) (fun p => .ok (fun s => decide (s = p)))
    "host!=~web" _ rfl (by decide)

/-- C3: for every key k and non-empty value v the parser compiles the
anchored pattern: rewriteRegexValue v is the anchored non-capturing group
when v does not start with a caret, a value already starting with a caret
is never wrapped a second time, parsing k!=~v and likewise k=~v stores the
anchored pattern and compiles it, and the expressions parsed from k!=~v
and from k!=~^(?:v) are equal, so their filters return the same
FilterDecision on every (name, tags) input. -/
theorem claim_C3_regex_anchoring (vk : String → Option String)
    (comp : String → Except String RegexFn) (expr1 expr2 expr3 k v : String)
    (hv : v ≠ "") (hstart : strHasPfx v "^" = false)
    (hs1 : structureOf expr1 = some ⟨k, true, false, true, v⟩)
    (hs2 : structureOf expr2 = some ⟨k, true, false, true, "^(?:" ++ v ++ ")"⟩)
    (hs3 : structureOf expr3 = some ⟨k, false, false, true, v⟩) :
    rewriteRegexValue v = "^(?:" ++ v ++ ")" ∧
    (∀ w : String, strHasPfx w "^" = true → rewriteRegexValue w = w) ∧
    (∀ ex : Expression,
      ParseExpression vk comp expr1 = .ok ex ∨ ParseExpression vk comp expr3 = .ok ex →
      ex.getValue = "^(?:" ++ v ++ ")" ∧
      ∃ re, comp ("^(?:" ++ v ++ ")") = .ok re ∧ ex.compiledRe = some re) ∧
    (∀ e1 e2 : expressionNotMatch,
      ParseExpression vk comp expr1 = .ok (.notMatch e1) →
      ParseExpression vk comp expr2 = .ok (.notMatch e2) →
      e1 = e2 ∧ ∀ (mcs : Int) (cache : FilterCache) (name : String) (tags : List String),
        (e1.GetMetricDefinitionFilter mcs cache name tags).1 =
          (e2.GetMetricDefinitionFilter mcs cache name tags).1) := by
  have hrw : rewriteRegexValue v = "^(?:" ++ v ++ ")" :=
    rewriteRegexValue_of_not_caret v hv hstart
  have hrw2 : rewriteRegexValue ("^(?:" ++ v ++ ")") = "^(?:" ++ v ++ ")" :=
    rewriteRegexValue_of_caret _ (strHasPfx_anchored v)
  refine ⟨hrw, fun w hw => rewriteRegexValue_of_caret w hw, ?_, ?_⟩
  · rintro ex (hx | hx)
    · have hspec := parse_ok_operator vk comp expr1 ex hx
      rw [hs1] at hspec
      simp only [Option.map_some'] at hspec
      injection hspec with hspec
      have hre : isRegexOperator ex.getOperator = true := by
        rw [← hspec]
        exact specOperator_regex_shape k v true hv
      obtain ⟨p, re, hs', hvk', hcomp, hshape⟩ := parse_ok_regex_inv vk comp expr1 ex hx hre
      have hpe := hs'.symm.trans hs1
      injection hpe with hpe
      subst hpe
      try dsimp only at hcomp hshape
      rw [hrw] at hcomp
      refine ⟨?_, re, hcomp, ?_⟩
      · rcases hshape with h1 | h1 | h1 <;> subst h1 <;> exact hrw
      · rcases hshape with h1 | h1 | h1 <;> subst h1 <;> rfl
    · have hspec := parse_ok_operator vk comp expr3 ex hx
      rw [hs3] at hspec
      simp only [Option.map_some'] at hspec
      injection hspec with hspec
      have hre : isRegexOperator ex.getOperator = true := by
        rw [← hspec]
        exact specOperator_regex_shape k v false hv
      obtain ⟨p, re, hs', hvk', hcomp, hshape⟩ := parse_ok_regex_inv vk comp expr3 ex hx hre
      have hpe := hs'.symm.trans hs3
      injection hpe with hpe
      subst hpe
      try dsimp only at hcomp hshape
      rw [hrw] at hcomp
      refine ⟨?_, re, hcomp, ?_⟩
      · rcases hshape with h1 | h1 | h1 <;> subst h1 <;> exact hrw
      · rcases hshape with h1 | h1 | h1 <;> subst h1 <;> rfl
  · intro e1 e2 h1 h2
    obtain ⟨k1, v1, re1, hs1', hv1, hk1, hvk1, hre1, he1⟩ :=
      parse_ok_notMatch_inv vk comp expr1 e1 h1
    obtain ⟨k2, v2, re2, hs2', hv2, hk2, hvk2, hre2, he2⟩ :=
      parse_ok_notMatch_inv vk comp expr2 e2 h2
    have hpp1 := hs1'.symm.trans hs1
    injection hpp1 with hpp1
    rw [StructParts.mk.injEq] at hpp1
    obtain ⟨hkk1, -, -, -, hvv1⟩ := hpp1
    subst hkk1
    subst hvv1
    have hpp2 := hs2'.symm.trans hs2
    injection hpp2 with hpp2
    rw [StructParts.mk.injEq] at hpp2
    obtain ⟨hkk2, -, -, -, hvv2⟩ := hpp2
    subst hkk2
    subst hvv2
    rw [hrw] at hre1
    rw [hrw2] at hre2
    rw [hre1] at hre2
    injection hre2 with hre2
    subst hre2
    subst he1
    subst he2
    rw [hrw, hrw2]
    exact ⟨rfl, fun _ _ _ _ => rfl⟩

/-- Witness for C3 at the concrete inputs "host!=~web", "host!=~^(?:web)"
and "host=~web". -/
theorem claim_C3_regex_anchoring_witness :
    rewriteRegexValue "web" = "^(?:" ++ "web" ++ ")" ∧
    (∀ w : String, strHasPfx w "^" = true → rewriteRegexValue w = w) ∧
    (∀ ex : Expression,
      ParseExpression (fun _ => none) (fun p => .ok (fun s => decide (s = p)))
          "host!=~web" = .ok ex ∨
        ParseExpression (fun _ => none) (fun p => .ok (fun s => decide (s = p)))
          "host=~web" = .ok ex →
      ex.getValue = "^(?:" ++ "web" ++ ")" ∧
      ∃ re, (fun p => (.ok (fun s => decide (s = p)) : Except String RegexFn))
          ("^(?:" ++ "web" ++ ")") = .ok re ∧ ex.compiledRe = some re) ∧
    (∀ e1 e2 : expressionNotMatch,
      ParseExpression (fun _ => none) (fun p => .ok (fun s => decide (s = p)))
        "host!=~web" = .ok (.notMatch e1) →
      ParseExpression (fun _ => none) (fun p => .ok (fun s => decide (s = p)))
        "host!=~^(?:web)" = .ok (.notMatch e2) →
      e1 = e2 ∧ ∀ (mcs : Int) (cache : FilterCache) (name : String) (tags : List String),
        (e1.GetMetricDefinitionFilter mcs cache name tags).1 =
          (e2.GetMetricDefinitionFilter mcs cache name tags).1) :=
  claim_C3_regex_anchoring (fun _ => none) (fun p => .ok (fun s => decide (s = p)))
    "host!=~web" "host!=~^(?:web)" "host=~web" "host" "web"
    (by decide) (by decide) (by decide) (by decide) (by decide)

/-- C4: for every accepted input, the operator of the returned expression
is the one the claim's flag table assigns to the structural decomposition
of the text, with the __tag remapping applied. -/
theorem claim_C4_operator_table (vk : String → Option String)
    (comp : String → Except String RegexFn) (expr : String) (ex : Expression)
    (h : ParseExpression vk comp expr = .ok ex) :
    (structureOf expr).map specOperator = some ex.getOperator :=
  parse_ok_operator vk comp expr ex h

/-- Witness for C4 at the concrete input "host!=~web". -/
theorem claim_C4_operator_table_witness :
    (structureOf "host!=~web").map specOperator =
      some (Expression.notMatch ⟨"host", "^(?:web)", false,
        fun s => decide (s = "^(?:web)")⟩).getOperator :=
  claim_C4_operator_table (fun _ => none) (fun p => .ok (fun s => decide (s = p)))
    "host!=~web" _ rfl

/-- C7 (code bug): the construction site in ParseExpression assigns only
the embedded expressionCommon and valueRe, leaving matchesEmpty at Go's
zero value false, so GetDefaultDecision on a parsed NOT_MATCH expression
returns Pass even when the compiled pattern matches the empty string:
parsing "a!=~.*" with a compiler whose pattern matches every string
yields an expression whose pattern matches "" but whose default decision
is Pass, where the claim, the spec and the method's own doc comment
require Fail. -/
theorem claim_C7_default_decision_code_bug :
    ((ParseExpression (fun _ => none) (fun _ => .ok (fun _ => true))
        "a!=~.*").toOption.map
      (fun ex => match ex with
        | .notMatch e => some (e.valueRe "", e.GetDefaultDecision)
        | _ => none)) = some (some (true, .Pass)) ∧
    FilterDecision.Pass ≠ FilterDecision.Fail :=
  ⟨by decide, by decide⟩

/-- C6: for every parsed NOT_MATCH expression the filter decision is a
deterministic function of (name, tags) under any faithful cache state:
the name fast path is conclusive, and the tag path is decided by the
first tag carrying the key, or None when no tag carries it. -/
theorem claim_C6_filter_decision (vk : String → Option String)
    (comp : String → Except String RegexFn) (expr : String) (e : expressionNotMatch)
    (mcs : Int) (cache : FilterCache) (name : String) (tags : List String)
    (h : ParseExpression vk comp expr = .ok (.notMatch e)) (hf : Faithful e cache) :
    (e.key = "name" →
      (e.GetMetricDefinitionFilter mcs cache name tags).1 =
        (if e.valueRe name then FilterDecision.Fail else .Pass) ∧
      (e.GetMetricDefinitionFilter mcs cache name tags).1 ≠ .None) ∧
    (e.key ≠ "name" →
      (e.GetMetricDefinitionFilter mcs cache name tags).1 =
        (match firstTagValue e.key tags with
         | none => FilterDecision.None
         | some v =>
           if e.value = "" then FilterDecision.Pass
           else if e.valueRe v then FilterDecision.Fail else .Pass)) := by
  have hvne : e.value ≠ "" := by
    obtain ⟨k, v, re, -, hv, -, -, -, he⟩ := parse_ok_notMatch_inv vk comp expr e h
    subst he
    exact rewriteRegexValue_ne_empty v hv
  constructor
  · intro hk
    have hdec : (e.GetMetricDefinitionFilter mcs cache name tags).1 =
        (if e.valueRe name then FilterDecision.Fail else .Pass) := by
      unfold expressionNotMatch.GetMetricDefinitionFilter
      rw [if_pos hk, if_neg hvne]
      by_cases hre : e.valueRe name = true
      · rw [if_pos hre, if_pos hre]
      · rw [if_neg hre, if_neg hre]
    refine ⟨hdec, ?_⟩
    rw [hdec]
    by_cases hre : e.valueRe name = true
    · rw [if_pos hre]
      simp
    · rw [if_neg hre]
      simp
  · intro hk
    unfold expressionNotMatch.GetMetricDefinitionFilter
    rw [if_neg hk]
    exact notMatchFilterLoop_decision e mcs cache hf tags

/-- Witness for C6 at a concrete expression, cache and tag list. -/
theorem claim_C6_filter_decision_witness :
    ((⟨"host", "^(?:web)", false, fun s => decide (s = "^(?:web)")⟩ :
        expressionNotMatch).GetMetricDefinitionFilter 100 emptyFilterCache "m"
      ["host=web01"]).1 = .Pass := by
  have h := claim_C6_filter_decision (fun _ => none)
    (fun p => .ok (fun s => decide (s = p))) "host!=~web"
    ⟨"host", "^(?:web)", false, fun s => decide (s = "^(?:web)")⟩
    100 emptyFilterCache "m" ["host=web01"] rfl (emptyFilterCache_faithful _)
  have h2 := h.2 (by decide)
  exact h2.trans (by decide)

/-- C5: ParseExpression returns an error exactly when the input is
malformed in the sense of the claim's enumeration, and every returned
error is the generic invalid-expression error carrying the text, a
key-validation error, or a regex-compile error; the Lean rendering of the
function is total, so no input can make it panic. -/
theorem claim_C5_errors_iff_malformed (vk : String → Option String)
    (comp : String → Except String RegexFn) (expr : String) :
    ((∃ err, ParseExpression vk comp expr = .error err) ↔ specMalformed vk comp expr) ∧
    (∀ err, ParseExpression vk comp expr = .error err →
      err = .invalidExpression expr ∨
      (∃ k msg, err = .keyValidation k expr msg) ∨
      (∃ msg, err = .regexCompile msg)) := by
  constructor
  · cases hs : structureOf expr with
    | none =>
      constructor
      · intro _
        unfold specMalformed
        rw [hs]
        trivial
      · intro _
        obtain ⟨err, herr, -⟩ := parse_err_of_structureOf_none vk comp expr hs
        exact ⟨err, herr⟩
    | some p =>
      have hb := parse_of_structureOf_some vk comp expr p hs
      have hinv := structureOf_some_inv expr p hs
      unfold specMalformed
      rw [hs]
      obtain ⟨pk, pn, pp, pr, pv⟩ := p
      try dsimp only at hb hinv ⊢
      constructor
      · rintro ⟨err, herr⟩
        rw [hb] at herr
        cases hvk : vk pk with
        | some msg =>
          exact Or.inl rfl
        | none =>
          rw [hvk] at herr
          try dsimp only at herr
          rcases parseTail_error_inv _ _ _ _ _ _ _ _ herr with
            ⟨hsemi, -⟩ | ⟨hmis, -⟩ | ⟨hreg, msg, hcomp, -⟩
          · exact absurd hsemi hinv.1
          · exact Or.inr (Or.inl hmis)
          · refine Or.inr (Or.inr ⟨?_, msg, hcomp⟩)
            rw [← finalOperator_eq_spec pk pv pn pp pr]
            exact hreg
      · intro hm
        rcases hm with hvks | hmis | ⟨hreg, msg, hcomp⟩
        · obtain ⟨msg, hvk⟩ := Option.isSome_iff_exists.mp hvks
          refine ⟨.keyValidation pk expr msg, ?_⟩
          rw [hb, hvk]
        · cases hvk : vk pk with
          | some msg2 =>
            exact ⟨_, by rw [hb, hvk]⟩
          | none =>
            refine ⟨.invalidExpression expr, ?_⟩
            rw [hb, hvk]
            try dsimp only
            exact parseTail_err_misuse comp expr pk pn pp pr pv.toList hinv.1 hmis
        · cases hvk : vk pk with
          | some msg2 =>
            exact ⟨_, by rw [hb, hvk]⟩
          | none =>
            by_cases hmis : pk = "__tag" ∧ (pn = true ∨ String.mk pv.toList = "")
            · refine ⟨.invalidExpression expr, ?_⟩
              rw [hb, hvk]
              try dsimp only
              exact parseTail_err_misuse comp expr pk pn pp pr pv.toList hinv.1 hmis
            · have hop := of_decide_eq_true hreg
              rw [← finalOperator_eq_spec pk pv pn pp pr] at hop
              refine ⟨.regexCompile msg, ?_⟩
              rw [hb, hvk]
              try dsimp only
              exact parseTail_err_compile comp expr pk pn pp pr pv.toList msg
                hinv.1 hmis hop hcomp
  · intro err herr
    cases hs : structureOf expr with
    | none =>
      obtain ⟨err2, herr2, hshape⟩ := parse_err_of_structureOf_none vk comp expr hs
      have heq : err2 = err := by
        have := herr2.symm.trans herr
        injection this
      subst heq
      rcases hshape with hsh | ⟨msg, hsh⟩
      · exact Or.inl hsh
      · exact Or.inr (Or.inl ⟨_, msg, hsh⟩)
    | some p =>
      have hb := parse_of_structureOf_some vk comp expr p hs
      rw [hb] at herr
      cases hvk : vk p.key with
      | some msg =>
        rw [hvk] at herr
        try dsimp only at herr
        injection herr with herr
        exact Or.inr (Or.inl ⟨p.key, msg, herr.symm⟩)
      | none =>
        rw [hvk] at herr
        try dsimp only at herr
        rcases parseTail_error_inv _ _ _ _ _ _ _ _ herr with
          ⟨-, hsh⟩ | ⟨-, hsh⟩ | ⟨-, msg, -, hsh⟩
        · exact Or.inl hsh
        · exact Or.inl hsh
        · exact Or.inr (Or.inr ⟨msg, hsh⟩)

/-- Witness for C5: the input "a;b=c" is malformed (semicolon in the key)
and the theorem yields its parse error. -/
theorem claim_C5_errors_iff_malformed_witness :
    ∃ err, ParseExpression (fun _ => none) (fun p => .ok (fun s => decide (s = p)))
      "a;b=c" = .error err :=
  (claim_C5_errors_iff_malformed (fun _ => none)
      (fun p => .ok (fun s => decide (s = p))) "a;b=c").1.mpr
    (by unfold specMalformed
        rw [show structureOf "a;b=c" = none from by decide]
        trivial)

end Tagquery
